import Mathlib

/-!
# Verification of the libhri reconciliation engine

Shallow embedding of `src/hri.cpp` / `include/hri/hri.h`: the `HRIListener`
class, its four per-category entity stores (`faces`, `bodies`, `voices`,
`persons`), the reconciliation routine `HRIListener::onTrackedFeature`, and
the read accessors `getFaces` / `getBodies` / `getVoices` / `getPersons`.

`std::map<ID, Ptr>` is embedded as an association list `List (ID × E)`;
`std::map::find`, `erase` and `insert` become `mapFind`, `mapErase` and
`mapInsert` below.  `std::set<ID>` built by repeated `insert` is embedded as
`List.dedup` of the inserted elements (only membership is observable in the
source).  Machine state that the claims do not touch (the ROS node handle,
the subscriber objects) is omitted.
-/

set_option autoImplicit false

namespace HriSpec

/-- `hri::ID` — `typedef std::string ID` (base.h is not in src/; the spec
describes IDs as opaque string-backed comparable identifiers). -/
abbrev ID := String

/-- `hri::FeatureType` — the fixed closed set of categories. -/
inductive FeatureType where
  | face
  | body
  | voice
  | person
deriving DecidableEq, Repr

/-- Embedding of `std::map<ID, E>`: an association list of key/value pairs. -/
abbrev EMap (E : Type) := List (ID × E)

/-- The key list of a map (the `kv.first` values seen when iterating, as in
the `current_ids.insert(kv.first)` loops of `onTrackedFeature`). -/
def keys {E : Type} (m : EMap E) : List ID :=
  m.map Prod.fst

/-- `std::map::find` — the value stored under `id`, if any. -/
def mapFind {E : Type} (m : EMap E) (id : ID) : Option E :=
  match m with
  | [] => none
  | (k, v) :: rest => if k = id then some v else mapFind rest id

/-- `std::map::erase(id)` — drop the entry whose key is `id`. -/
def mapErase {E : Type} (m : EMap E) (id : ID) : EMap E :=
  m.filter (fun kv => decide (kv.1 ≠ id))

/-- `std::map::insert({id, e})` — inserts only when `id` is not yet present
(`std::map::insert` is a no-op on an existing key). -/
def mapInsert {E : Type} (m : EMap E) (id : ID) (e : E) : EMap E :=
  if (mapFind m id).isSome then m else m ++ [(id, e)]

/-- The `to_add` set of `onTrackedFeature`: IDs of the announced snapshot
(`new_ids`, a `std::set` built from the message, hence deduplicated) that are
not among the store's current keys
(`if (current_ids.find(id) == current_ids.end()) to_add.insert(id)`). -/
def toAddIds (currentIds : List ID) (tracked : List ID) : List ID :=
  tracked.dedup.filter (fun id => decide (id ∉ currentIds))

/-- The `to_remove` set of `onTrackedFeature`: current keys that are absent
from the announced snapshot
(`if (new_ids.find(id) == new_ids.end()) to_remove.insert(id)`). -/
def toRemoveIds (currentIds : List ID) (tracked : List ID) : List ID :=
  currentIds.filter (fun id => decide (id ∉ tracked.dedup))

/-- The removal pass: `for (auto id : to_remove) map.erase(id)`. -/
def applyRemoves {E : Type} (m : EMap E) (ids : List ID) : EMap E :=
  ids.foldl (fun acc id => mapErase acc id) m

/-- The addition pass: `for (auto id : to_add) { auto e = make_shared<..>(id);
e->init(); map.insert({id, e}); }` where `create id` stands for
construction followed by the (non-faulting) `init()` hydration. -/
def applyAdds {E : Type} (create : ID → E) (m : EMap E) (ids : List ID) : EMap E :=
  ids.foldl (fun acc id => mapInsert acc id (create id)) m

/-- The category-generic body of `HRIListener::onTrackedFeature` acting on a
single store: build `current_ids` from the map's keys, diff against the
announced snapshot, erase `to_remove`, then insert `to_add`.  The C++
repeats this code once per category (with `Face`/`Body`/`Voice`/`Person`
constructors); `create` abstracts that per-category constructor. -/
def reconcile {E : Type} (create : ID → E) (m : EMap E) (tracked : List ID) : EMap E :=
  let currentIds := (keys m).dedup
  applyAdds create (applyRemoves m (toRemoveIds currentIds tracked)) (toAddIds currentIds tracked)

/-- `hri::Face` — a tracked face.  base.h/face.h are not in src/; modelled
from the spec: a `FeatureTracker` holds its immutable `ID` plus
category-specific detail state hydrated by `init()` and accumulated
afterwards, abstracted here as a `Nat`. -/
structure Face where
  id : ID
  detail : Nat
deriving DecidableEq, Repr

/-- `hri::Body` — a tracked body (modelled from the spec like `Face`). -/
structure Body where
  id : ID
  detail : Nat
deriving DecidableEq, Repr

/-- `hri::Voice` — a tracked voice (voice.h: a `FeatureTracker` with an
`init()` override; detail state abstracted as in `Face`). -/
structure Voice where
  id : ID
  detail : Nat
deriving DecidableEq, Repr

/-- `hri::Person` — a tracked person (person.h is not in src/; modelled from
the spec: the detail state, including its face/body/voice associations,
is abstracted as a `Nat`). -/
structure Person where
  id : ID
  detail : Nat
deriving DecidableEq, Repr

/-- `make_shared<Face>(id, node_)` followed by `face->init()`: a freshly
hydrated face.  The concrete initial detail value is irrelevant to the
claims; `0` stands for the just-hydrated state. -/
def Face.create (id : ID) : Face := { id := id, detail := 0 }

/-- `make_shared<Body>(id, node_)` followed by `body->init()`. -/
def Body.create (id : ID) : Body := { id := id, detail := 0 }

/-- `make_shared<Voice>(id, node_)` followed by `voice->init()`. -/
def Voice.create (id : ID) : Voice := { id := id, detail := 0 }

/-- `make_shared<Person>(id, this, node_)` followed by `person->init()`. -/
def Person.create (id : ID) : Person := { id := id, detail := 0 }

/-- A registered observer (`std::function<void(WeakConstPtr)>`): opaque to
the core, modelled as a token.  The source stores callbacks via
`onFace`/`onBody`/`onVoice`/`onPerson` but `onTrackedFeature` never reads
the callback vectors. -/
abbrev Callback := Nat

/-- An observer invocation that `onTrackedFeature` performs: which category's
observers were notified about which entity ID.  The embedding returns the
list of invocations so that notification behaviour is observable. -/
abbrev Notification := FeatureType × ID

/-- The state of `hri::HRIListener`: the four per-category entity stores and
the four callback vectors (hri.h lines 143-153). -/
structure HRIListener where
  faces : EMap Face
  face_callbacks : List Callback
  bodies : EMap Body
  body_callbacks : List Callback
  voices : EMap Voice
  voice_callbacks : List Callback
  persons : EMap Person
  person_callbacks : List Callback
deriving DecidableEq, Repr

/-- `HRIListener::onTrackedFeature(feature, tracked)` (hri.cpp 129-254):
reconcile the announced ID list against the store of the given category.
Alongside the new listener state it returns the list of observer
invocations the call performed; the source never invokes any registered
callback (the `*_callbacks` vectors are written by
`onFace`/`onBody`/`onVoice`/`onPerson` but read nowhere), so that list is
empty on every path. -/
def onTrackedFeature (l : HRIListener) (feature : FeatureType) (tracked : List ID) :
    HRIListener × List Notification :=
  match feature with
  | .face => ({ l with faces := reconcile Face.create l.faces tracked }, [])
  | .body => ({ l with bodies := reconcile Body.create l.bodies tracked }, [])
  | .voice => ({ l with voices := reconcile Voice.create l.voices tracked }, [])
  | .person => ({ l with persons := reconcile Person.create l.persons tracked }, [])

/-- The key list of the store selected by `feature`. -/
def keysAt (feature : FeatureType) (l : HRIListener) : List ID :=
  match feature with
  | .face => keys l.faces
  | .body => keys l.bodies
  | .voice => keys l.voices
  | .person => keys l.persons

/-- A category-independent view of one stored entity, for stating lookup
properties uniformly across the four stores. -/
inductive TrackedEntity where
  | face : Face → TrackedEntity
  | body : Body → TrackedEntity
  | voice : Voice → TrackedEntity
  | person : Person → TrackedEntity
deriving DecidableEq, Repr

/-- Look up the entity stored under `x` in the store selected by `feature`. -/
def findAt (feature : FeatureType) (l : HRIListener) (x : ID) : Option TrackedEntity :=
  match feature with
  | .face => (mapFind l.faces x).map TrackedEntity.face
  | .body => (mapFind l.bodies x).map TrackedEntity.body
  | .voice => (mapFind l.voices x).map TrackedEntity.voice
  | .person => (mapFind l.persons x).map TrackedEntity.person

/-- The `to_add` set computed by `onTrackedFeature` for the given category
and announced list. -/
def toAddAt (feature : FeatureType) (l : HRIListener) (tracked : List ID) : List ID :=
  toAddIds ((keysAt feature l).dedup) tracked

/-- The `to_remove` set computed by `onTrackedFeature` for the given category
and announced list. -/
def toRemoveAt (feature : FeatureType) (l : HRIListener) (tracked : List ID) : List ID :=
  toRemoveIds ((keysAt feature l).dedup) tracked

/-- `std::weak_ptr<const E>` built from a stored `shared_ptr`: a non-owning
reference to the stored entity. -/
structure Weak (E : Type) where
  get : E
deriving DecidableEq, Repr

/-- `HRIListener::getFaces` (hri.cpp 61-73): builds a fresh map holding, for
each entry of the internal store, a weak pointer to the stored face
(`result[f.first] = f.second`). -/
def getFaces (l : HRIListener) : EMap (Weak Face) :=
  l.faces.map (fun kv => (kv.1, Weak.mk kv.2))

/-- `HRIListener::getBodies` (hri.cpp 75-87). -/
def getBodies (l : HRIListener) : EMap (Weak Body) :=
  l.bodies.map (fun kv => (kv.1, Weak.mk kv.2))

/-- `HRIListener::getVoices` (hri.cpp 89-101). -/
def getVoices (l : HRIListener) : EMap (Weak Voice) :=
  l.voices.map (fun kv => (kv.1, Weak.mk kv.2))

/-- `HRIListener::getPersons` (hri.cpp 103-106): returns the `persons` map of
shared (owning) pointers by value. -/
def getPersons (l : HRIListener) : EMap Person :=
  l.persons

/-- The addition pass when the per-category `init()` hydration may fault
(C++: `e->init()` throwing between construction and `map.insert`).
`create id = none` models the fault; on a fault the pass unwinds,
returning the faulting ID together with the store state left behind. -/
def applyAddsE {E : Type} (create : ID → Option E) :
    EMap E → List ID → Except (ID × EMap E) (EMap E)
  | m, [] => .ok m
  | m, id :: rest =>
    match create id with
    | none => .error (id, m)
    | some e => applyAddsE create (mapInsert m id e) rest

/-- `reconcile` with a possibly-faulting `init()` hydration step: the same
diff and removal pass, then the faultable addition pass. -/
def reconcileE {E : Type} (create : ID → Option E) (m : EMap E) (tracked : List ID) :
    Except (ID × EMap E) (EMap E) :=
  let currentIds := (keys m).dedup
  applyAddsE create (applyRemoves m (toRemoveIds currentIds tracked)) (toAddIds currentIds tracked)

/-- The three stores other than the one selected by `feature`, together with
the selected slot blanked out: the part of the listener's store state
that `onTrackedFeature feature` must not touch. -/
def nonTargetStores (feature : FeatureType) (l : HRIListener) :
    EMap Face × EMap Body × EMap Voice × EMap Person :=
  match feature with
  | .face => ([], l.bodies, l.voices, l.persons)
  | .body => (l.faces, [], l.voices, l.persons)
  | .voice => (l.faces, l.bodies, [], l.persons)
  | .person => (l.faces, l.bodies, l.voices, [])

/-- The four callback vectors of the listener. -/
def callbacksOf (l : HRIListener) :
    List Callback × List Callback × List Callback × List Callback :=
  (l.face_callbacks, l.body_callbacks, l.voice_callbacks, l.person_callbacks)

/-! ## Basic lemmas about the map operations -/

theorem keys_nil {E : Type} : keys ([] : EMap E) = [] := rfl

theorem keys_cons {E : Type} (kv : ID × E) (rest : EMap E) :
    keys (kv :: rest) = kv.1 :: keys rest := rfl

theorem keys_append {E : Type} (m₁ m₂ : EMap E) :
    keys (m₁ ++ m₂) = keys m₁ ++ keys m₂ :=
  List.map_append _ _ _

theorem mapFind_isSome_iff_mem_keys {E : Type} (m : EMap E) (x : ID) :
    (mapFind m x).isSome ↔ x ∈ keys m := by
  induction m with
  | nil => simp [mapFind, keys_nil]
  | cons kv rest ih =>
    obtain ⟨k, v⟩ := kv
    rw [keys_cons, List.mem_cons]
    by_cases h : k = x
    · subst h
      simp [mapFind]
    · rw [mapFind, if_neg h, ih]
      have hxk : ¬ x = k := fun hx => h hx.symm
      tauto

theorem mapErase_cons {E : Type} (k : ID) (v : E) (rest : EMap E) (id : ID) :
    mapErase ((k, v) :: rest) id =
      if k = id then mapErase rest id else (k, v) :: mapErase rest id := by
  by_cases h : k = id <;> simp [mapErase, h]

theorem mem_keys_mapErase {E : Type} (m : EMap E) (id x : ID) :
    x ∈ keys (mapErase m id) ↔ x ∈ keys m ∧ x ≠ id := by
  induction m with
  | nil => simp [mapErase, keys_nil]
  | cons kv rest ih =>
    obtain ⟨k, v⟩ := kv
    rw [mapErase_cons, keys_cons, List.mem_cons]
    by_cases h : k = id
    · subst h
      rw [if_pos rfl, ih]
      constructor
      · tauto
      · rintro ⟨rfl | hx, hne⟩
        · exact absurd rfl hne
        · exact ⟨hx, hne⟩
    · rw [if_neg h, keys_cons, List.mem_cons, ih]
      constructor
      · rintro (rfl | ⟨hx, hne⟩)
        · exact ⟨Or.inl rfl, h⟩
        · exact ⟨Or.inr hx, hne⟩
      · rintro ⟨rfl | hx, hne⟩
        · exact Or.inl rfl
        · exact Or.inr ⟨hx, hne⟩

theorem mapFind_mapErase_ne {E : Type} (m : EMap E) (id x : ID) (hne : x ≠ id) :
    mapFind (mapErase m id) x = mapFind m x := by
  induction m with
  | nil => rfl
  | cons kv rest ih =>
    obtain ⟨k, v⟩ := kv
    rw [mapErase_cons]
    by_cases h : k = id
    · rw [if_pos h, ih]
      have hkx : ¬ k = x := fun hk => hne (hk ▸ h)
      rw [mapFind, if_neg hkx]
    · rw [if_neg h]
      by_cases hk : k = x
      · simp only [mapFind, if_pos hk]
      · simp only [mapFind, if_neg hk, ih]

theorem mapFind_append_single_ne {E : Type} (m : EMap E) (id : ID) (e : E) (x : ID)
    (hne : x ≠ id) : mapFind (m ++ [(id, e)]) x = mapFind m x := by
  induction m with
  | nil =>
    simp [mapFind, (show ¬ id = x from fun h => hne h.symm)]
  | cons kv rest ih =>
    obtain ⟨k, v⟩ := kv
    by_cases hk : k = x
    · simp only [List.cons_append, mapFind, if_pos hk]
    · simp only [List.cons_append, mapFind, if_neg hk]
      exact ih

theorem mem_keys_mapInsert {E : Type} (m : EMap E) (id : ID) (e : E) (x : ID) :
    x ∈ keys (mapInsert m id e) ↔ x ∈ keys m ∨ x = id := by
  unfold mapInsert
  by_cases hfind : (mapFind m id).isSome
  · rw [if_pos hfind]
    have hid : id ∈ keys m := (mapFind_isSome_iff_mem_keys m id).mp hfind
    constructor
    · exact Or.inl
    · rintro (hx | rfl)
      · exact hx
      · exact hid
  · rw [if_neg hfind, keys_append, List.mem_append, keys_cons, keys_nil, List.mem_singleton]

theorem mapFind_mapInsert_ne {E : Type} (m : EMap E) (id : ID) (e : E) (x : ID)
    (hne : x ≠ id) : mapFind (mapInsert m id e) x = mapFind m x := by
  unfold mapInsert
  by_cases hfind : (mapFind m id).isSome
  · rw [if_pos hfind]
  · rw [if_neg hfind, mapFind_append_single_ne m id e x hne]

/-! ## Lemmas about the removal and addition passes -/

theorem applyRemoves_nil {E : Type} (m : EMap E) : applyRemoves m [] = m := rfl

theorem applyRemoves_cons {E : Type} (m : EMap E) (id : ID) (rest : List ID) :
    applyRemoves m (id :: rest) = applyRemoves (mapErase m id) rest := rfl

theorem applyAdds_nil {E : Type} (create : ID → E) (m : EMap E) :
    applyAdds create m [] = m := rfl

theorem applyAdds_cons {E : Type} (create : ID → E) (m : EMap E) (id : ID) (rest : List ID) :
    applyAdds create m (id :: rest) = applyAdds create (mapInsert m id (create id)) rest := rfl

theorem mem_keys_applyRemoves {E : Type} (ids : List ID) (m : EMap E) (x : ID) :
    x ∈ keys (applyRemoves m ids) ↔ x ∈ keys m ∧ x ∉ ids := by
  induction ids generalizing m with
  | nil => simp [applyRemoves_nil]
  | cons id rest ih =>
    rw [applyRemoves_cons, ih, mem_keys_mapErase, List.mem_cons]
    tauto

theorem mem_keys_applyAdds {E : Type} (create : ID → E) (ids : List ID) (m : EMap E) (x : ID) :
    x ∈ keys (applyAdds create m ids) ↔ x ∈ keys m ∨ x ∈ ids := by
  induction ids generalizing m with
  | nil => simp [applyAdds_nil]
  | cons id rest ih =>
    rw [applyAdds_cons, ih, mem_keys_mapInsert, List.mem_cons]
    tauto

theorem mapFind_applyRemoves {E : Type} (ids : List ID) (m : EMap E) (x : ID)
    (hx : x ∉ ids) : mapFind (applyRemoves m ids) x = mapFind m x := by
  induction ids generalizing m with
  | nil => rfl
  | cons id rest ih =>
    rw [List.mem_cons] at hx
    push_neg at hx
    rw [applyRemoves_cons, ih _ hx.2, mapFind_mapErase_ne m id x hx.1]

theorem mapFind_applyAdds {E : Type} (create : ID → E) (ids : List ID) (m : EMap E) (x : ID)
    (hx : x ∉ ids) : mapFind (applyAdds create m ids) x = mapFind m x := by
  induction ids generalizing m with
  | nil => rfl
  | cons id rest ih =>
    rw [List.mem_cons] at hx
    push_neg at hx
    rw [applyAdds_cons, ih _ hx.2, mapFind_mapInsert_ne m id (create id) x hx.1]

/-! ## Lemmas about the computed diff sets -/

theorem mem_toAddIds (currentIds tracked : List ID) (x : ID) :
    x ∈ toAddIds currentIds tracked ↔ x ∈ tracked ∧ x ∉ currentIds := by
  simp [toAddIds, List.mem_filter, List.mem_dedup]

theorem mem_toRemoveIds (currentIds tracked : List ID) (x : ID) :
    x ∈ toRemoveIds currentIds tracked ↔ x ∈ currentIds ∧ x ∉ tracked := by
  simp [toRemoveIds, List.mem_filter, List.mem_dedup]

theorem nodup_toAddIds (currentIds tracked : List ID) :
    (toAddIds currentIds tracked).Nodup :=
  (List.nodup_dedup tracked).filter _

/-! ## Core reconciliation lemmas -/

theorem mem_keys_reconcile {E : Type} (create : ID → E) (m : EMap E) (tracked : List ID)
    (x : ID) : x ∈ keys (reconcile create m tracked) ↔ x ∈ tracked := by
  simp only [reconcile]
  rw [mem_keys_applyAdds, mem_keys_applyRemoves, mem_toAddIds, mem_toRemoveIds,
    List.mem_dedup]
  by_cases hm : x ∈ keys m <;> by_cases ht : x ∈ tracked <;> simp [hm, ht]

theorem mapFind_reconcile_of_mem {E : Type} (create : ID → E) (m : EMap E)
    (tracked : List ID) (x : ID) (hm : x ∈ keys m) (ht : x ∈ tracked) :
    mapFind (reconcile create m tracked) x = mapFind m x := by
  simp only [reconcile]
  rw [mapFind_applyAdds, mapFind_applyRemoves]
  · rw [mem_toRemoveIds]
    tauto
  · rw [mem_toAddIds, List.mem_dedup]
    tauto

theorem reconcile_of_keys_iff {E : Type} (create : ID → E) (m : EMap E) (tracked : List ID)
    (h : ∀ x, x ∈ keys m ↔ x ∈ tracked) :
    toAddIds ((keys m).dedup) tracked = [] ∧
      toRemoveIds ((keys m).dedup) tracked = [] ∧
      reconcile create m tracked = m := by
  have hadd : toAddIds ((keys m).dedup) tracked = [] := by
    rw [List.eq_nil_iff_forall_not_mem]
    intro x hx
    rw [mem_toAddIds, List.mem_dedup] at hx
    exact hx.2 ((h x).mpr hx.1)
  have hrem : toRemoveIds ((keys m).dedup) tracked = [] := by
    rw [List.eq_nil_iff_forall_not_mem]
    intro x hx
    rw [mem_toRemoveIds, List.mem_dedup] at hx
    exact hx.2 ((h x).mp hx.1)
  refine ⟨hadd, hrem, ?_⟩
  simp only [reconcile]
  rw [hadd, hrem, applyRemoves_nil, applyAdds_nil]

/-! ## Lemmas about the faultable addition pass -/

theorem applyAddsE_error_absent {E : Type} (create : ID → Option E) (ids : List ID)
    (m : EMap E) (hnodup : ids.Nodup) (habs : ∀ y ∈ ids, y ∉ keys m)
    (x : ID) (m' : EMap E) (herr : applyAddsE create m ids = .error (x, m')) :
    x ∉ keys m' := by
  induction ids generalizing m with
  | nil => cases herr
  | cons id rest ih =>
    rw [applyAddsE] at herr
    cases hc : create id with
    | none =>
      rw [hc] at herr
      simp only [Except.error.injEq, Prod.mk.injEq] at herr
      obtain ⟨rfl, rfl⟩ := herr
      exact habs _ (List.mem_cons_self _ _)
    | some e =>
      rw [hc] at herr
      rw [List.nodup_cons] at hnodup
      refine ih (mapInsert m id e) hnodup.2 ?_ herr
      intro y hy
      rw [mem_keys_mapInsert]
      push_neg
      refine ⟨habs y (List.mem_cons_of_mem id hy), ?_⟩
      intro hyid
      exact hnodup.1 (hyid ▸ hy)

theorem reconcileE_error_absent {E : Type} (create : ID → Option E) (m : EMap E)
    (tracked : List ID) (x : ID) (m' : EMap E)
    (herr : reconcileE create m tracked = .error (x, m')) : x ∉ keys m' := by
  simp only [reconcileE] at herr
  refine applyAddsE_error_absent create _ _ (nodup_toAddIds _ _) ?_ x m' herr
  intro y hy
  rw [mem_keys_applyRemoves]
  push_neg
  intro hym
  exfalso
  rw [mem_toAddIds, List.mem_dedup] at hy
  exact hy.2 hym

/-! ## Derived facts shared by the claim theorems -/

theorem mem_keysAt_onTrackedFeature (l : HRIListener) (feature : FeatureType)
    (tracked : List ID) (x : ID) :
    x ∈ keysAt feature ((onTrackedFeature l feature tracked).1) ↔ x ∈ tracked := by
  cases feature <;>
    simp only [onTrackedFeature, keysAt] <;>
    exact mem_keys_reconcile _ _ _ _

theorem reconcile_idem {E : Type} (create : ID → E) (m : EMap E) (tracked : List ID) :
    toAddIds ((keys (reconcile create m tracked)).dedup) tracked = [] ∧
      toRemoveIds ((keys (reconcile create m tracked)).dedup) tracked = [] ∧
      reconcile create (reconcile create m tracked) tracked = reconcile create m tracked :=
  reconcile_of_keys_iff create _ tracked (fun x => mem_keys_reconcile create m tracked x)

theorem keys_map_weak {E F : Type} (f : E → F) (m : EMap E) :
    keys (m.map (fun kv => (kv.1, f kv.2))) = keys m := by
  simp [keys, List.map_map, Function.comp]

theorem mapFind_map_weak {E F : Type} (f : E → F) (m : EMap E) (id : ID) :
    mapFind (m.map (fun kv => (kv.1, f kv.2))) id = (mapFind m id).map f := by
  induction m with
  | nil => rfl
  | cons kv rest ih =>
    obtain ⟨k, v⟩ := kv
    by_cases hk : k = id
    · simp only [List.map_cons, mapFind, if_pos hk]
      rfl
    · simp only [List.map_cons, mapFind, if_neg hk, ih]

/-! ## The claims -/

/-- C1: for every category and every announced ID list `S` (including the
empty list), after `onTrackedFeature(category, S)` completes, the key set
of that category's entity map equals exactly the set of IDs in `S`: no
stale entry survives and no announced ID is missing. -/
theorem C1_store_keys_equal_snapshot (l : HRIListener) (feature : FeatureType)
    (tracked : List ID) (x : ID) :
    x ∈ keysAt feature ((onTrackedFeature l feature tracked).1) ↔ x ∈ tracked :=
  mem_keysAt_onTrackedFeature l feature tracked x

/-- C2 (behaviour at the failing input): with one observer registered for
faces and an empty store, `onTrackedFeature(face, ["f1"])` computes the
to-add set `["f1"]` and inserts the new face, yet performs zero observer
invocations — the source never reads the `face_callbacks` vector, so the
claimed (and header-documented) notification never fires. -/
theorem C2_no_notification_fires :
    toAddAt .face ⟨[], [7], [], [], [], [], [], []⟩ ["f1"] = ["f1"] ∧
      (onTrackedFeature ⟨[], [7], [], [], [], [], [], []⟩ .face ["f1"]).2 = [] ∧
      (onTrackedFeature ⟨[], [7], [], [], [], [], [], []⟩ .face ["f1"]).1.face_callbacks = [7] ∧
      mapFind (onTrackedFeature ⟨[], [7], [], [], [], [], [], []⟩ .face ["f1"]).1.faces "f1" =
        some (Face.create "f1") := by
  refine ⟨by decide, rfl, rfl, by decide⟩

/-- C3: an ID present both in the store and in the new snapshot keeps the
very same entity (same accumulated detail state) across the
reconciliation; it is neither erased and recreated nor re-initialized. -/
theorem C3_identity_preservation (l : HRIListener) (feature : FeatureType)
    (tracked : List ID) (x : ID) (hm : x ∈ keysAt feature l) (ht : x ∈ tracked) :
    findAt feature ((onTrackedFeature l feature tracked).1) x = findAt feature l x := by
  cases feature <;>
    simp only [onTrackedFeature, findAt, keysAt] at hm ⊢ <;>
    rw [mapFind_reconcile_of_mem _ _ _ _ hm ht]

/-- Witness for C3: a stored face `"f1"` with accumulated detail `5` survives
the snapshot `["f1", "f2"]` untouched. -/
theorem C3_identity_preservation_witness :
    "f1" ∈ keysAt .face ⟨[("f1", ⟨"f1", 5⟩)], [], [], [], [], [], [], []⟩ ∧
      "f1" ∈ ["f1", "f2"] ∧
      findAt .face
          ((onTrackedFeature ⟨[("f1", ⟨"f1", 5⟩)], [], [], [], [], [], [], []⟩ .face
            ["f1", "f2"]).1) "f1" =
        findAt .face ⟨[("f1", ⟨"f1", 5⟩)], [], [], [], [], [], [], []⟩ "f1" :=
  ⟨by decide, by decide,
    C3_identity_preservation ⟨[("f1", ⟨"f1", 5⟩)], [], [], [], [], [], [], []⟩ .face
      ["f1", "f2"] "f1" (by decide) (by decide)⟩

/-- C4: calling `onTrackedFeature` twice with the same ID list yields, on the
second call, empty `to_add` and `to_remove` sets and zero observer
invocations, and leaves the store state identical to the state after the
first call. -/
theorem C4_idempotence (l : HRIListener) (feature : FeatureType) (tracked : List ID) :
    toAddAt feature ((onTrackedFeature l feature tracked).1) tracked = [] ∧
      toRemoveAt feature ((onTrackedFeature l feature tracked).1) tracked = [] ∧
      (onTrackedFeature ((onTrackedFeature l feature tracked).1) feature tracked).2 = [] ∧
      (onTrackedFeature ((onTrackedFeature l feature tracked).1) feature tracked).1 =
        (onTrackedFeature l feature tracked).1 := by
  cases feature <;>
    simp only [onTrackedFeature, toAddAt, toRemoveAt, keysAt] <;>
    exact ⟨(reconcile_idem _ _ _).1, (reconcile_idem _ _ _).2.1, trivial,
      by rw [(reconcile_idem _ _ _).2.2]⟩

/-- C5: the computed `to_add` and `to_remove` sets are disjoint for every
input, and the reconciliation applies the whole removal pass before the
addition pass. -/
theorem C5_removals_before_additions (l : HRIListener) (feature : FeatureType)
    (tracked : List ID) :
    (∀ x, ¬(x ∈ toAddAt feature l tracked ∧ x ∈ toRemoveAt feature l tracked)) ∧
      ∀ (E : Type) (create : ID → E) (m : EMap E),
        reconcile create m tracked =
          applyAdds create (applyRemoves m (toRemoveIds ((keys m).dedup) tracked))
            (toAddIds ((keys m).dedup) tracked) := by
  constructor
  · rintro x ⟨ha, hr⟩
    rw [toAddAt, mem_toAddIds] at ha
    rw [toRemoveAt, mem_toRemoveIds] at hr
    exact hr.2 ha.1
  · intro E create m
    rfl

/-- C6: if the detail-hydration step `init()` of a newly constructed entity
faults during an addition, that entity is not inserted and its ID is
absent from the store state left behind — no half-initialized entity is
visible through the mapping. -/
theorem C6_failed_init_leaves_id_absent {E : Type} (create : ID → Option E)
    (m : EMap E) (tracked : List ID) (x : ID) (m' : EMap E)
    (herr : reconcileE create m tracked = .error (x, m')) :
    mapFind m' x = none ∧ x ∉ keys m' := by
  have habs := reconcileE_error_absent create m tracked x m' herr
  refine ⟨?_, habs⟩
  cases hf : mapFind m' x with
  | none => rfl
  | some v =>
    exact absurd ((mapFind_isSome_iff_mem_keys m' x).mp (by rw [hf]; rfl)) habs

/-- Witness for C6: a hydration step that faults on `"v1"` aborts the
addition with `"v1"` still absent from the store. -/
theorem C6_failed_init_leaves_id_absent_witness :
    reconcileE (fun _ => (none : Option Voice)) [] ["v1"] = .error ("v1", []) ∧
      mapFind ([] : EMap Voice) "v1" = none ∧ "v1" ∉ keys ([] : EMap Voice) :=
  ⟨rfl, C6_failed_init_leaves_id_absent (fun _ => (none : Option Voice)) [] ["v1"]
    "v1" [] rfl⟩

/-- C7: `getFaces`, `getBodies` and `getVoices` return freshly built maps
whose key sets equal the respective store's key set and whose values are
weak (non-owning) references to the stored entities; `getPersons` returns
a map of owning-shared references covering exactly the persons store's
key set. -/
theorem C7_reader_snapshots (l : HRIListener) :
    keys (getFaces l) = keys l.faces ∧
      (∀ id, mapFind (getFaces l) id = (mapFind l.faces id).map Weak.mk) ∧
      keys (getBodies l) = keys l.bodies ∧
      (∀ id, mapFind (getBodies l) id = (mapFind l.bodies id).map Weak.mk) ∧
      keys (getVoices l) = keys l.voices ∧
      (∀ id, mapFind (getVoices l) id = (mapFind l.voices id).map Weak.mk) ∧
      keys (getPersons l) = keys l.persons ∧
      ∀ id, mapFind (getPersons l) id = mapFind l.persons id :=
  ⟨keys_map_weak _ _, fun id => mapFind_map_weak _ _ id,
    keys_map_weak _ _, fun id => mapFind_map_weak _ _ id,
    keys_map_weak _ _, fun id => mapFind_map_weak _ _ id,
    rfl, fun _ => rfl⟩

/-- C8: reconciliation factors through set semantics — two announced lists
with the same underlying ID set (regardless of duplicates or order)
produce the same `to_add` and `to_remove` sets and the same resulting
key set. -/
theorem C8_set_semantics (l : HRIListener) (feature : FeatureType) (t₁ t₂ : List ID)
    (h : ∀ x, x ∈ t₁ ↔ x ∈ t₂) :
    (∀ x, x ∈ toAddAt feature l t₁ ↔ x ∈ toAddAt feature l t₂) ∧
      (∀ x, x ∈ toRemoveAt feature l t₁ ↔ x ∈ toRemoveAt feature l t₂) ∧
      ∀ x, x ∈ keysAt feature ((onTrackedFeature l feature t₁).1) ↔
        x ∈ keysAt feature ((onTrackedFeature l feature t₂).1) := by
  refine ⟨fun x => ?_, fun x => ?_, fun x => ?_⟩
  · rw [toAddAt, toAddAt, mem_toAddIds, mem_toAddIds, h x]
  · rw [toRemoveAt, toRemoveAt, mem_toRemoveIds, mem_toRemoveIds]
    have := h x
    tauto
  · rw [mem_keysAt_onTrackedFeature, mem_keysAt_onTrackedFeature, h x]

/-- Witness for C8: the duplicated, reordered list `["b", "a", "a"]` behaves
like `["a", "b"]`. -/
theorem C8_set_semantics_witness :
    (∀ x, x ∈ (["b", "a", "a"] : List ID) ↔ x ∈ (["a", "b"] : List ID)) ∧
      ((∀ x, x ∈ toAddAt .body ⟨[], [], [], [], [], [], [], []⟩ ["b", "a", "a"] ↔
          x ∈ toAddAt .body ⟨[], [], [], [], [], [], [], []⟩ ["a", "b"]) ∧
        (∀ x, x ∈ toRemoveAt .body ⟨[], [], [], [], [], [], [], []⟩ ["b", "a", "a"] ↔
          x ∈ toRemoveAt .body ⟨[], [], [], [], [], [], [], []⟩ ["a", "b"]) ∧
        ∀ x, x ∈ keysAt .body
            ((onTrackedFeature ⟨[], [], [], [], [], [], [], []⟩ .body ["b", "a", "a"]).1) ↔
          x ∈ keysAt .body
            ((onTrackedFeature ⟨[], [], [], [], [], [], [], []⟩ .body ["a", "b"]).1)) :=
  have h : ∀ x, x ∈ (["b", "a", "a"] : List ID) ↔ x ∈ (["a", "b"] : List ID) := by
    intro x
    simp [List.mem_cons]
    tauto
  ⟨h, C8_set_semantics ⟨[], [], [], [], [], [], [], []⟩ .body ["b", "a", "a"] ["a", "b"] h⟩

/-- C9: `onTrackedFeature(c, list)` mutates at most the entity map of
category `c`: the other three stores and all four callback vectors are
unchanged. -/
theorem C9_frame_condition (l : HRIListener) (feature : FeatureType) (tracked : List ID) :
    nonTargetStores feature ((onTrackedFeature l feature tracked).1) =
        nonTargetStores feature l ∧
      callbacksOf ((onTrackedFeature l feature tracked).1) = callbacksOf l := by
  cases feature <;> exact ⟨rfl, rfl⟩

/-- C10: the reconciliation outcome depends only on the targeted store's key
set and the announced ID set — not on the detail state of the stored
entities nor on the order (or duplication) of the announced list. -/
theorem C10_determinism (l₁ l₂ : HRIListener) (feature : FeatureType) (t₁ t₂ : List ID)
    (hkeys : ∀ x, x ∈ keysAt feature l₁ ↔ x ∈ keysAt feature l₂)
    (ht : ∀ x, x ∈ t₁ ↔ x ∈ t₂) :
    (∀ x, x ∈ toAddAt feature l₁ t₁ ↔ x ∈ toAddAt feature l₂ t₂) ∧
      (∀ x, x ∈ toRemoveAt feature l₁ t₁ ↔ x ∈ toRemoveAt feature l₂ t₂) ∧
      ∀ x, x ∈ keysAt feature ((onTrackedFeature l₁ feature t₁).1) ↔
        x ∈ keysAt feature ((onTrackedFeature l₂ feature t₂).1) := by
  refine ⟨fun x => ?_, fun x => ?_, fun x => ?_⟩
  · simp only [toAddAt, mem_toAddIds, List.mem_dedup]
    have h1 := hkeys x
    have h2 := ht x
    tauto
  · simp only [toRemoveAt, mem_toRemoveIds, List.mem_dedup]
    have h1 := hkeys x
    have h2 := ht x
    tauto
  · rw [mem_keysAt_onTrackedFeature, mem_keysAt_onTrackedFeature, ht x]

/-- Witness for C10: two listeners holding voice `"v1"` with different detail
states, fed the reordered lists `["v1", "v2"]` and `["v2", "v1"]`. -/
theorem C10_determinism_witness :
    (∀ x, x ∈ keysAt .voice ⟨[], [], [], [], [("v1", ⟨"v1", 1⟩)], [], [], []⟩ ↔
        x ∈ keysAt .voice ⟨[], [], [], [], [("v1", ⟨"v1", 2⟩)], [], [], []⟩) ∧
      (∀ x, x ∈ (["v1", "v2"] : List ID) ↔ x ∈ (["v2", "v1"] : List ID)) ∧
      ∀ x, x ∈ keysAt .voice
          ((onTrackedFeature ⟨[], [], [], [], [("v1", ⟨"v1", 1⟩)], [], [], []⟩ .voice
            ["v1", "v2"]).1) ↔
        x ∈ keysAt .voice
          ((onTrackedFeature ⟨[], [], [], [], [("v1", ⟨"v1", 2⟩)], [], [], []⟩ .voice
            ["v2", "v1"]).1) :=
  have hkeys : ∀ x, x ∈ keysAt .voice ⟨[], [], [], [], [("v1", ⟨"v1", 1⟩)], [], [], []⟩ ↔
      x ∈ keysAt .voice ⟨[], [], [], [], [("v1", ⟨"v1", 2⟩)], [], [], []⟩ := by
    intro x
    rfl
  have ht : ∀ x, x ∈ (["v1", "v2"] : List ID) ↔ x ∈ (["v2", "v1"] : List ID) := by
    intro x
    simp [List.mem_cons]
    tauto
  ⟨hkeys, ht,
    (C10_determinism ⟨[], [], [], [], [("v1", ⟨"v1", 1⟩)], [], [], []⟩
      ⟨[], [], [], [], [("v1", ⟨"v1", 2⟩)], [], [], []⟩ .voice
      ["v1", "v2"] ["v2", "v1"] hkeys ht).2.2⟩

end HriSpec
